import Mathlib

/-!
Shallow embedding of the tinabot Agent Orchestration Core
(src/tinabot/memory.py, message_store.py, openai_agent.py, agent.py)
and proofs of the spec claims about it.

Machine integers in the source are Python arbitrary-precision ints,
embedded as Nat.  Python dicts keyed by task id are embedded as
functions `String → Option Task`; the per-task message list of
MessageStore is embedded as `List HMsg` for one task.  Fallible or
external pieces (the network stream, tool executors) are embedded as
explicit event lists / oracle functions passed in.
-/

namespace Tinabot

/-! ### Data model: Task and the TaskMemory store (memory.py) -/

/-- memory.py `Task` dataclass: id, name, optional session pointer,
creation timestamp, turn counter, optional summary, active flag. -/
structure Task where
  id : String
  name : String
  session_id : Option String
  created_at : String
  turn_count : Nat
  summary : Option String
  active : Bool
deriving DecidableEq, Repr

/-- `TaskMemory._tasks`: a dict from task id to Task. -/
abbrev Store := String → Option Task

/-- The empty task store. -/
def emptyStore : Store := fun _ => none

/-- Set a task's active flag to False (the loop bodies in
`create_task` / `set_active`). -/
def deactivate (t : Task) : Task := { t with active := false }

/-- memory.py `TaskMemory.create_task`: deactivate all other tasks,
then insert a fresh task (active, name truncated to 80 chars).
The random 8-char hex id and the current timestamp are parameters. -/
def create_task (s : Store) (task_id nm createdAt : String) : Store :=
  fun k =>
    if k = task_id then
      some ⟨task_id, nm.take 80, none, createdAt, 0, none, true⟩
    else
      (s k).map deactivate

/-- memory.py `TaskMemory.set_active`: if the id is unknown return the
store unchanged (the method returns None); otherwise deactivate every
task and set the named one active. -/
def set_active (s : Store) (task_id : String) : Store :=
  match s task_id with
  | none => s
  | some t =>
      fun k =>
        if k = task_id then some { t with active := true }
        else (s k).map deactivate

/-- memory.py `TaskMemory.update_session_id`: store the session id when
the task exists, no-op otherwise. -/
def update_session_id (s : Store) (task_id sid : String) : Store :=
  match s task_id with
  | none => s
  | some t =>
      fun k =>
        if k = task_id then some { t with session_id := some sid } else s k

/-- memory.py `TaskMemory.increment_turns`: increment and return the new
turn count when the task exists; return 0 and leave the store unchanged
otherwise. -/
def increment_turns (s : Store) (task_id : String) : Store × Nat :=
  match s task_id with
  | none => (s, 0)
  | some t =>
      (fun k =>
        if k = task_id then some { t with turn_count := t.turn_count + 1 }
        else s k,
       t.turn_count + 1)

/-- memory.py `TaskMemory.save_summary`: when the task exists, set the
summary and clear session pointer and turn counter; no-op otherwise. -/
def save_summary (s : Store) (task_id summary : String) : Store :=
  match s task_id with
  | none => s
  | some t =>
      fun k =>
        if k = task_id then
          some { t with summary := some summary, session_id := none,
                        turn_count := 0 }
        else s k

/-- memory.py `TaskMemory.delete_task`. -/
def delete_task (s : Store) (task_id : String) : Store × Bool :=
  match s task_id with
  | none => (s, false)
  | some _ => (fun k => if k = task_id then none else s k, true)

/-- memory.py `TaskMemory.needs_compression`: turn counter at/above the
configured threshold, session pointer present, no summary. -/
def needs_compression (compress_after_turns : Nat) (t : Task) : Bool :=
  decide (compress_after_turns ≤ t.turn_count) &&
    t.session_id.isSome && t.summary.isNone

/-- At most one task in the store is active. -/
def AtMostOneActive (s : Store) : Prop :=
  ∀ i j ti tj, s i = some ti → s j = some tj →
    ti.active = true → tj.active = true → i = j

/-- Stores reachable from the empty store through the TaskMemory
mutating operations. -/
inductive Reachable : Store → Prop where
  | empty : Reachable emptyStore
  | create (s : Store) (task_id nm createdAt : String) :
      Reachable s → Reachable (create_task s task_id nm createdAt)
  | setActive (s : Store) (task_id : String) :
      Reachable s → Reachable (set_active s task_id)
  | updateSession (s : Store) (task_id sid : String) :
      Reachable s → Reachable (update_session_id s task_id sid)
  | increment (s : Store) (task_id : String) :
      Reachable s → Reachable (increment_turns s task_id).1
  | saveSummary (s : Store) (task_id summary : String) :
      Reachable s → Reachable (save_summary s task_id summary)
  | delete (s : Store) (task_id : String) :
      Reachable s → Reachable (delete_task s task_id).1

/-! ### Message history entries (message_store.py / openai_agent.py) -/

/-- A completed tool call as assembled by adapter A
(`_stream_completion`): identifier, tool name, argument string. -/
structure ToolCall where
  id : String
  name : String
  arguments : String
deriving DecidableEq, Repr

/-- A raw Responses-API output item as delivered by a
`response.output_item.done` event (adapter B).  Absent string fields of
the wire dict are embedded as `""`. -/
structure WireItem where
  type : String
  call_id : String
  name : String
  arguments : String
  content : String
deriving DecidableEq, Repr

/-- One entry of a task's message history, covering both adapters'
vocabularies: role-tagged chat messages with optional tool_calls,
`role:"tool"` result records, pass-through Responses items, and
`function_call_output` records. -/
inductive HMsg where
  | system (content : String)
  | user (content : String)
  | assistant (content : String)
  | assistantCalls (content : Option String) (calls : List ToolCall)
  | tool (tool_call_id : String) (content : String)
  | item (w : WireItem)
  | functionCallOutput (call_id output : String)
deriving DecidableEq, Repr

/-- Whether a history entry is the system/developer instruction entry
(the `msgs[0].get("role") == "system"` check of `trim_to_budget`). -/
def HMsg.isSystem : HMsg → Bool
  | .system _ => true
  | _ => false

/-- Python `xs[-k:]`: the last `k` elements for `k > 0`, and the whole
list for `k = 0` (Python's `xs[-0:]` is `xs[0:]`). -/
def pyTail (k : Nat) (xs : List α) : List α :=
  if k = 0 then xs else xs.drop (xs.length - k)

/-- message_store.py `MessageStore.trim_to_budget`: if the history fits
the budget leave it; otherwise keep the leading system entry (when the
first entry is one) plus the last `maxMessages` remaining entries. -/
def trim_to_budget (msgs : List HMsg) (maxMessages : Nat) : List HMsg :=
  if msgs.length ≤ maxMessages then msgs
  else
    match msgs with
    | [] => []
    | m :: rest =>
        if m.isSystem then m :: pyTail maxMessages rest
        else pyTail maxMessages (m :: rest)

/-- The identifiers of all tool-call records in a history window
(ids inside `tool_calls` of assistant entries). -/
def callIds (msgs : List HMsg) : List String :=
  msgs.flatMap fun m =>
    match m with
    | .assistantCalls _ cs => cs.map (·.id)
    | _ => []

/-- The identifiers of all tool-result records in a history window
(`tool_call_id` of `role:"tool"` entries). -/
def resultIds (msgs : List HMsg) : List String :=
  msgs.filterMap fun m =>
    match m with
    | .tool cid _ => some cid
    | _ => none

/-- Every tool-call record has its paired tool-result record in the
window and vice versa (pairing by call identifier). -/
def wellPaired (msgs : List HMsg) : Bool :=
  (callIds msgs).all (fun i => (resultIds msgs).contains i) &&
    (resultIds msgs).all (fun i => (callIds msgs).contains i)

/-! ### Streaming Protocol Adapter A: delta stream
(`OpenAIAgent._stream_completion`) -/

/-- Token usage totals (prompt/input, completion/output). -/
structure Usage where
  input : Nat
  output : Nat
deriving DecidableEq, Repr

/-- One indexed tool-call fragment of a delta-stream chunk.  Absent
fields of the wire dict are embedded as `""` (the source tests them
with Python truthiness, so `""` and absent behave identically). -/
structure TCDelta where
  index : Nat
  id : String
  name : String
  arguments : String
deriving DecidableEq, Repr

/-- The `choices[0].delta` payload of a chunk. -/
structure Delta where
  content : String
  tool_calls : List TCDelta
deriving DecidableEq, Repr

/-- One streamed chunk: optional usage frame and optional delta
(`delta = none` embeds a chunk with empty `choices`). -/
structure Chunk where
  usage : Option Usage
  delta : Option Delta
deriving DecidableEq, Repr

/-- The fresh accumulator entry for a newly seen index. -/
def emptyCall : ToolCall := ⟨"", "", ""⟩

/-- Merge one fragment into an accumulating call: a non-empty id or
name overwrites, a non-empty argument fragment is appended. -/
def applyDelta (tc : ToolCall) (d : TCDelta) : ToolCall :=
  let tc1 := if d.id ≠ "" then { tc with id := d.id } else tc
  let tc2 := if d.name ≠ "" then { tc1 with name := d.name } else tc1
  if d.arguments ≠ "" then
    { tc2 with arguments := tc2.arguments ++ d.arguments }
  else tc2

/-- `tool_calls_by_index[idx]` update: merge the fragment into the
entry for its index, inserting a fresh entry when the index is new. -/
def updateAssoc : List (Nat × ToolCall) → TCDelta → List (Nat × ToolCall)
  | [], d => [(d.index, applyDelta emptyCall d)]
  | (j, tc) :: rest, d =>
      if d.index = j then (j, applyDelta tc d) :: rest
      else (j, tc) :: updateAssoc rest d

/-- Accumulator state of `_stream_completion`. -/
structure SCState where
  text : String
  acc : List (Nat × ToolCall)
  usage : Usage
deriving DecidableEq, Repr

/-- Consume one chunk: a usage frame overwrites the running total, a
text delta is appended, tool-call fragments are merged by index. -/
def scStep (st : SCState) (c : Chunk) : SCState :=
  let st1 :=
    match c.usage with
    | some u => { st with usage := u }
    | none => st
  match c.delta with
  | none => st1
  | some d =>
      let st2 :=
        if d.content ≠ "" then { st1 with text := st1.text ++ d.content }
        else st1
      { st2 with acc := d.tool_calls.foldl updateAssoc st2.acc }

/-- Fold a whole delta stream (adapter A round trip). -/
def streamCompletion (chunks : List Chunk) : SCState :=
  chunks.foldl scStep ⟨"", [], ⟨0, 0⟩⟩

/-- `sorted(tool_calls_by_index)` projection: sort the indices and look
each one up, yielding the completed calls ordered by index. -/
def resolve (acc : List (Nat × ToolCall)) : List ToolCall :=
  ((acc.map Prod.fst).insertionSort (· ≤ ·)).filterMap
    (fun i => acc.lookup i)

/-- All tool-call fragments of one chunk. -/
def chunkDeltas (c : Chunk) : List TCDelta :=
  match c.delta with
  | some d => d.tool_calls
  | none => []

/-- All tool-call fragments of a stream, in arrival order. -/
def allDeltas (chunks : List Chunk) : List TCDelta :=
  (chunks.map chunkDeltas).flatten

/-- Specification-side description of the resolved call for index `i`:
merge, in arrival order, exactly the fragments addressed to `i`. -/
def mergedAt (ds : List TCDelta) (i : Nat) : ToolCall :=
  (ds.filter (fun d => d.index == i)).foldl applyDelta emptyCall

/-- The distinct indices addressed by a fragment list. -/
def deltaIndices (ds : List TCDelta) : List Nat :=
  (ds.map (·.index)).dedup

/-- The last non-empty string of a fragment-field list, `""` if none
(how overwrite-on-non-empty merging treats id and name fields). -/
def lastSupplied (l : List String) : String :=
  l.foldl (fun a s => if s ≠ "" then s else a) ""

/-! ### Tool-calling loop, adapter A (`OpenAIAgent.run`) -/

/-- openai_agent.py `MAX_TOOL_ITERATIONS`. -/
def MAX_TOOL_ITERATIONS : Nat := 25

/-- The fixed iteration-limit notice appended when the loop exhausts
its ceiling. -/
def iterationLimitNotice : String :=
  "\n\n(Reached maximum tool call iterations.)"

/-- Result record of one agent run (`OpenAIResult`). -/
structure OpenAIResult where
  text : String
  input_tokens : Nat
  output_tokens : Nat
  num_turns : Nat
  tool_uses : List String
  response_id : Option String
deriving DecidableEq, Repr

/-- The default-initialised `OpenAIResult()`. -/
def OpenAIResult.init : OpenAIResult := ⟨"", 0, 0, 0, [], none⟩

/-- The assistant message recorded for a tool-calling round trip
(content is `None` when no text was produced). -/
def assistantCallsMsg (text : String) (tcs : List ToolCall) : HMsg :=
  .assistantCalls (if text ≠ "" then some text else none) tcs

/-- The `role:"tool"` result entries appended for a batch of calls,
in the order reported.  `exec` is the Tool Dispatch Contract (argument
parsing included; it never raises). -/
def toolResultMsgs (exec : ToolCall → String) (tcs : List ToolCall) :
    List HMsg :=
  tcs.map fun tc => .tool tc.id (exec tc)

/-- The per-iteration result accumulation of the loop: add the round
trip's usage to the token totals and count the round trip. -/
def accumA (res : OpenAIResult) (st : SCState) : OpenAIResult :=
  { res with
    input_tokens := res.input_tokens + st.usage.input,
    output_tokens := res.output_tokens + st.usage.output,
    num_turns := res.num_turns + 1 }

/-- The message-history extension performed by one tool-calling
iteration of `run` (the branch taken whenever the round trip reported
at least one tool call): the assistant message carrying the calls,
then one `role:"tool"` result entry per call. -/
def stepMsgs (streams : List HMsg → List Chunk) (exec : ToolCall → String)
    (msgs : List HMsg) : List HMsg :=
  let st := streamCompletion (streams msgs)
  let tcs := resolve st.acc
  msgs ++ [assistantCallsMsg st.text tcs] ++ toolResultMsgs exec tcs

/-- The agent loop of `OpenAIAgent.run`.  `streams` is the provider:
the chunk stream it answers with for a given message history.  The
fuel counts the remaining `range(MAX_TOOL_ITERATIONS)` iterations;
at fuel 0 the Python `for`-`else` branch appends the limit notice to
the last produced text. -/
def runLoop (streams : List HMsg → List Chunk) (exec : ToolCall → String) :
    Nat → List HMsg → OpenAIResult → String → OpenAIResult × List HMsg
  | 0, msgs, res, lastText =>
      ({ res with text := lastText ++ iterationLimitNotice }, msgs)
  | n + 1, msgs, res, _ =>
      let st := streamCompletion (streams msgs)
      let tcs := resolve st.acc
      if tcs = [] then
        ({ accumA res st with text := st.text },
         if st.text ≠ "" then msgs ++ [.assistant st.text] else msgs)
      else
        runLoop streams exec n (stepMsgs streams exec msgs)
          { accumA res st with
              tool_uses := res.tool_uses ++ tcs.map (·.name) }
          st.text

/-- The message history fed to the `k`-th round trip (0-based) when
every earlier round trip reported tool calls. -/
def msgsAt (streams : List HMsg → List Chunk) (exec : ToolCall → String)
    (k : Nat) (msgs : List HMsg) : List HMsg :=
  (stepMsgs streams exec)^[k] msgs

/-- The text produced by the `k`-th round trip (0-based). -/
def textAt (streams : List HMsg → List Chunk) (exec : ToolCall → String)
    (k : Nat) (msgs : List HMsg) : String :=
  (streamCompletion (streams (msgsAt streams exec k msgs))).text

/-- The usage reported by the `k`-th round trip (0-based). -/
def usageAtA (streams : List HMsg → List Chunk) (exec : ToolCall → String)
    (k : Nat) (msgs : List HMsg) : Usage :=
  (streamCompletion (streams (msgsAt streams exec k msgs))).usage

/-- How many of the up-to-`n` remaining loop iterations actually run
(each iteration counts, including the final no-tool-calls one). -/
def loopIters (streams : List HMsg → List Chunk) (exec : ToolCall → String) :
    Nat → List HMsg → Nat
  | 0, _ => 0
  | n + 1, msgs =>
      if resolve (streamCompletion (streams msgs)).acc = [] then 1
      else 1 + loopIters streams exec n (stepMsgs streams exec msgs)

/-- `OpenAIAgent.run` history initialisation: an empty store gets the
system entry prepended; otherwise a leading system entry has its
content replaced in place. -/
def initMessages (stored : List HMsg) (sys : String) : List HMsg :=
  match stored with
  | [] => [.system sys]
  | m :: rest =>
      match m with
      | .system _ => .system sys :: rest
      | _ => m :: rest

/-- `OpenAIAgent.run`: initialise history, append the user message,
run the loop for `MAX_TOOL_ITERATIONS`, trim to 100 messages.
Returns the result and the persisted history. -/
def run (stored : List HMsg) (sys userMsg : String)
    (streams : List HMsg → List Chunk) (exec : ToolCall → String) :
    OpenAIResult × List HMsg :=
  let msgs := initMessages stored sys ++ [.user userMsg]
  let out := runLoop streams exec MAX_TOOL_ITERATIONS msgs .init ""
  (out.1, trim_to_budget out.2 100)

/-! ### Streaming Protocol Adapter B: item stream
(`OpenAIAgent._stream_responses`) -/

/-- A completed function call reported by adapter B. -/
structure FuncCall where
  call_id : String
  name : String
  arguments : String
deriving DecidableEq, Repr

/-- Recognised Responses-API stream events.  `other` stands for any
event of an unrecognised type (ignored by the fold). -/
inductive BEvent where
  | textDelta (s : String)
  | argsDelta (s : String)
  | itemDone (w : WireItem)
  | completed (id : String) (u : Usage)
  | other
deriving DecidableEq, Repr

/-- Accumulator state of `_stream_responses`. -/
structure SRState where
  text : String
  funcCalls : List FuncCall
  usage : Usage
  response_id : Option String
  outputItems : List WireItem
deriving DecidableEq, Repr

/-- Consume one event: text deltas append; a done item is recorded
verbatim in `outputItems` (and, when a function call, also as a
completed call); `response.completed` sets the response id and
overwrites usage; argument deltas and unknown events are ignored. -/
def srStep (st : SRState) (e : BEvent) : SRState :=
  match e with
  | .textDelta s => if s ≠ "" then { st with text := st.text ++ s } else st
  | .argsDelta _ => st
  | .itemDone w =>
      let st1 := { st with outputItems := st.outputItems ++ [w] }
      if w.type = "function_call" then
        { st1 with funcCalls :=
            st1.funcCalls ++ [⟨w.call_id, w.name, w.arguments⟩] }
      else st1
  | .completed idR u => { st with response_id := some idR, usage := u }
  | .other => st

/-- Fold a whole item stream (adapter B round trip). -/
def streamResponses (events : List BEvent) : SRState :=
  events.foldl srStep ⟨"", [], ⟨0, 0⟩, none, []⟩

/-- The `function_call_output` entries appended for a batch of calls. -/
def fcOutputs (exec : FuncCall → String) (fcs : List FuncCall) : List HMsg :=
  fcs.map fun fc => .functionCallOutput fc.call_id (exec fc)

/-- The result-record accumulation of one `run_codex` iteration. -/
def codexAccum (res : OpenAIResult) (st : SRState) : OpenAIResult :=
  { res with
    input_tokens := res.input_tokens + st.usage.input,
    output_tokens := res.output_tokens + st.usage.output,
    num_turns := res.num_turns + 1,
    response_id :=
      match st.response_id with
      | some rid => if rid = "" then res.response_id else some rid
      | none => res.response_id }

/-- The entries appended by one tool-calling `run_codex` iteration:
the completed output items verbatim, then one `function_call_output`
record per reported call. -/
def newItemsB (streams : List HMsg → List BEvent)
    (exec : FuncCall → String) (items : List HMsg) : List HMsg :=
  let st := streamResponses (streams items)
  st.outputItems.map HMsg.item ++ fcOutputs exec st.funcCalls

/-- The item-sequence extension of one tool-calling `run_codex`
iteration. -/
def stepItems (streams : List HMsg → List BEvent)
    (exec : FuncCall → String) (items : List HMsg) : List HMsg :=
  items ++ newItemsB streams exec items

/-- The agent loop of `OpenAIAgent.run_codex`: `items` is the input
item sequence sent to the provider, `hist` the history to persist
(kept equal by the source; both are extended with the completed output
items and the synthesized `function_call_output` records). -/
def runCodexLoop (streams : List HMsg → List BEvent)
    (exec : FuncCall → String) :
    Nat → List HMsg → List HMsg → OpenAIResult → String →
      OpenAIResult × List HMsg
  | 0, _, hist, res, lastText =>
      ({ res with text := lastText ++ iterationLimitNotice }, hist)
  | n + 1, items, hist, res, _ =>
      let st := streamResponses (streams items)
      if st.funcCalls = [] then
        ({ codexAccum res st with text := st.text },
         if st.text ≠ "" then hist ++ [.assistant st.text] else hist)
      else
        runCodexLoop streams exec n (stepItems streams exec items)
          (hist ++ newItemsB streams exec items)
          { codexAccum res st with
              tool_uses :=
                (codexAccum res st).tool_uses ++ st.funcCalls.map (·.name) }
          st.text

/-- The usage reported by the `k`-th `run_codex` round trip. -/
def usageAtB (streams : List HMsg → List BEvent)
    (exec : FuncCall → String) (k : Nat) (items : List HMsg) : Usage :=
  (streamResponses (streams ((stepItems streams exec)^[k] items))).usage

/-- Iteration count of the `run_codex` loop. -/
def loopItersB (streams : List HMsg → List BEvent)
    (exec : FuncCall → String) : Nat → List HMsg → Nat
  | 0, _ => 0
  | n + 1, items =>
      if (streamResponses (streams items)).funcCalls = [] then 1
      else 1 + loopItersB streams exec n (stepItems streams exec items)

/-- `OpenAIAgent.run_codex`: append the user message to the stored
history, run the loop, persist and trim.  (The source keeps
`input_items` and `history` as two lists receiving identical appends;
both start as the history with the user message appended.) -/
def runCodex (stored : List HMsg) (userMsg : String)
    (streams : List HMsg → List BEvent) (exec : FuncCall → String) :
    OpenAIResult × List HMsg :=
  let hist := stored ++ [.user userMsg]
  let out := runCodexLoop streams exec MAX_TOOL_ITERATIONS hist hist .init ""
  (out.1, trim_to_budget out.2 100)

/-! ### Orchestrator timeout handling (`TinaAgent.process` /
`TinaAgent._process_openai`) -/

/-- The fixed timeout notice both handlers build
(f-string over the configured wall-clock budget in seconds). -/
def timeoutNotice (t : Nat) : String :=
  "Request timed out after " ++ toString t ++
    "s. You can retry or send a simpler request."

/-- Response text assembled by the Claude-path `TinaAgent.process`
handler (agent.py:561-571), before the function's epilogue runs: the
streamed text parts, with the timeout notice appended as one more part
when the budget elapsed, joined with newlines (empty string when no
parts). -/
def processClaudeText (parts : List String) (timedOut : Bool) (t : Nat) :
    String :=
  let ps := parts ++ (if timedOut then [timeoutNotice t] else [])
  if ps = [] then "" else String.intercalate "\n" ps

/-- State assembled by the `TinaAgent._process_openai` handler
(agent.py:663-668) when the wall-clock budget elapses after `k`
completed tool-calling iterations of the adapter-A run, before the
function's epilogue runs: the handler replaces the response text with
the fixed notice (the partial text accumulated inside the cancelled
run is dropped), while the message store keeps exactly what the run
had already persisted. -/
def processOpenaiTimedOut (stored : List HMsg) (sys userMsg : String)
    (streams : List HMsg → List Chunk) (exec : ToolCall → String)
    (k : Nat) (t : Nat) : String × List HMsg :=
  (timeoutNotice t,
   (stepMsgs streams exec)^[k] (initMessages stored sys ++ [.user userMsg]))

/-- The method names class `TaskMemory` defines (memory.py:31-177,
complete).  `save_last_response` and `get_last_response`, which
agent.py calls on the TaskMemory instance, are not among them. -/
def taskMemoryMethods : List String :=
  ["__init__", "_load", "_save", "create_task", "get_task",
   "get_active_task", "set_active", "list_tasks", "update_session_id",
   "increment_turns", "needs_compression", "save_summary",
   "get_summary", "delete_task"]

/-- Python attribute lookup on the TaskMemory instance: a defined
method is found, any other name raises AttributeError. -/
def memoryAttr (name : String) : Except String Unit :=
  if taskMemoryMethods.contains name then Except.ok ()
  else
    Except.error
      ("AttributeError: TaskMemory object has no attribute " ++ name)

/-- The epilogue of the Claude-path `process` (agent.py:571-580): with
the response text assembled, `if response.text:` the code calls
`self.memory.save_last_response(...)` — attribute dispatch on
TaskMemory, outside any try/except — before the response is returned.
The outcome is the returned response text, or the uncaught
exception. -/
def processClaudeOutcome (parts : List String) (timedOut : Bool)
    (t : Nat) : Except String String :=
  let text := processClaudeText parts timedOut t
  if text ≠ "" then
    match memoryAttr "save_last_response" with
    | Except.ok _ => Except.ok text
    | Except.error e => Except.error e
  else Except.ok text

/-- The epilogue of `_process_openai` (agent.py:673-679) on the
timed-out run: the same `save_last_response` attribute dispatch runs
before the response is returned.  The first component is the returned
response text or the uncaught exception; the second is the message
store, which keeps what the run persisted in either case (the
exception rolls nothing back). -/
def processOpenaiOutcome (stored : List HMsg) (sys userMsg : String)
    (streams : List HMsg → List Chunk) (exec : ToolCall → String)
    (k : Nat) (t : Nat) : Except String String × List HMsg :=
  let r := processOpenaiTimedOut stored sys userMsg streams exec k t
  (if r.1 ≠ "" then
     match memoryAttr "save_last_response" with
     | Except.ok _ => Except.ok r.1
     | Except.error e => Except.error e
   else Except.ok r.1,
   r.2)

/-! ### Process-side Task mutation and the Compression Policy
(`TinaAgent.process` / `_compress_task_claude`) -/

/-- The only Task-record mutation `TinaAgent.process` performs after a
successful non-Claude interaction: increment the turn counter
(agent.py: "auto-compression disabled").  The Claude path additionally
refreshes the session pointer; neither path writes a summary. -/
def processTaskUpdate (s : Store) (task_id : String) : Store :=
  (increment_turns s task_id).1

/-- `TinaAgent._compress_task_claude` outcome: the summary round trip
returns text fragments; a non-empty fragment list is joined with
newlines and committed via `save_summary`, an empty one leaves the
store untouched. -/
def compressTask (s : Store) (task_id : String) (parts : List String) :
    Store :=
  if parts = [] then s
  else save_summary s task_id (String.intercalate "\n" parts)

/-! ### Concrete inputs used by witnesses and counterexamples -/

/-- A task at the default compression threshold: 20 turns, live
session pointer, no summary. -/
def task0 : Task := ⟨"t1", "demo", some "s", "2026-01-01T00:00:00", 20, none, true⟩

/-- A store holding exactly `task0`. -/
def store0 : Store := fun k => if k = "t1" then some task0 else none

/-- A tool-call record with identifier "c1". -/
def exCall : ToolCall := ⟨"c1", "Bash", "\x7b\x7d"⟩

/-- A 102-entry history: system entry, one paired call/result, then 99
user entries. -/
def exHistory : List HMsg :=
  .system "sys" :: .assistantCalls none [exCall] :: .tool "c1" "ok" ::
    List.replicate 99 (.user "m")

/-- A chunk carrying one complete tool-call fragment. -/
def chunkTool : Chunk := ⟨none, some ⟨"", [⟨0, "id1", "T", "\x7b\x7d"⟩]⟩⟩

/-- A bare final usage frame. -/
def chunkUsage : Chunk := ⟨some ⟨3, 2⟩, none⟩

/-- A provider that reports the same single tool call on every round
trip. -/
def streamsA0 : List HMsg → List Chunk := fun _ => [chunkTool, chunkUsage]

/-- A tool executor returning a fixed result. -/
def execA0 : ToolCall → String := fun _ => "ok"

/-- A completed assistant message item (adapter B). -/
def msgItem0 : WireItem := ⟨"message", "", "", "", "hi"⟩

/-- A text-only adapter-B round trip: a text delta, the completed
assistant message item, the terminal `response.completed` event. -/
def streamsB0 : List HMsg → List BEvent :=
  fun _ => [.textDelta "hi", .itemDone msgItem0, .completed "r1" ⟨1, 1⟩]

/-- A tool executor for adapter B returning a fixed result. -/
def execB0 : FuncCall → String := fun _ => "out"

/-- An adapter-B provider that reports the same single function call
on every round trip. -/
def fcItem0 : WireItem := ⟨"function_call", "fc1", "T", "\x7b\x7d", ""⟩

/-- Event stream for a round trip reporting one function call. -/
def streamsB1 : List HMsg → List BEvent :=
  fun _ => [.itemDone fcItem0, .completed "r2" ⟨4, 5⟩]

/-- First C6 scenario fragment: index 0, name "Read", first argument
piece. -/
def chunkRead1 : Chunk :=
  ⟨none, some ⟨"", [⟨0, "", "Read", "\x7b\"file_"⟩]⟩⟩

/-- Second C6 scenario fragment: index 0, remaining argument piece. -/
def chunkRead2 : Chunk :=
  ⟨none, some ⟨"", [⟨0, "", "", "path\":\"a.txt\"\x7d"⟩]⟩⟩

/-! ## Theorems -/

/-! ### Helper lemmas -/

/-- One tool-calling iteration only extends the history. -/
theorem stepMsgs_extends (streams : List HMsg → List Chunk)
    (exec : ToolCall → String) (m : List HMsg) :
    ∃ tl, stepMsgs streams exec m = m ++ tl := by
  refine ⟨[assistantCallsMsg (streamCompletion (streams m)).text
      (resolve (streamCompletion (streams m)).acc)] ++
      toolResultMsgs exec (resolve (streamCompletion (streams m)).acc), ?_⟩
  simp [stepMsgs]

/-- Later iterates of the history-extension step keep every earlier
iterate as a prefix of the list. -/
theorem iterate_stepMsgs_extends (streams : List HMsg → List Chunk)
    (exec : ToolCall → String) (m : List HMsg) :
    ∀ j k, j ≤ k → ∃ tail,
      (stepMsgs streams exec)^[k] m =
        (stepMsgs streams exec)^[j] m ++ tail := by
  intro j k hjk
  induction k with
  | zero =>
      cases Nat.le_zero.mp hjk
      exact ⟨[], by simp⟩
  | succ n ih =>
      rcases Nat.eq_or_lt_of_le hjk with h | h
      · exact ⟨[], by simp [h]⟩
      · obtain ⟨tail, htail⟩ := ih (Nat.lt_succ_iff.mp h)
        obtain ⟨tl, htl⟩ :=
          stepMsgs_extends streams exec ((stepMsgs streams exec)^[n] m)
        exact ⟨tail ++ tl, by
          rw [Function.iterate_succ_apply', htl, htail, List.append_assoc]⟩

/-! ### C8 -/

/-- C8: setting a summary on an existing task always yields a null
session pointer and a zero turn counter, regardless of the prior
values, and the task's summary equals the given text. -/
theorem save_summary_clears_session (s : Store) (idT sum : String)
    (t : Task) (h : s idT = some t) :
    ∃ t', save_summary s idT sum idT = some t' ∧
      t'.summary = some sum ∧ t'.session_id = none ∧ t'.turn_count = 0 := by
  refine ⟨{ t with summary := some sum
                   session_id := none
                   turn_count := 0 }, ?_, rfl, rfl, rfl⟩
  simp [save_summary, h]

/-- Witness for C8 at the concrete store `store0`. -/
theorem save_summary_clears_session_witness :
    ∃ t', save_summary store0 "t1" "S" "t1" = some t' ∧
      t'.summary = some "S" ∧ t'.session_id = none ∧ t'.turn_count = 0 :=
  save_summary_clears_session store0 "t1" "S" task0 (by decide)

/-! ### C10 -/

/-- C10: for an absent task id, `update_session_id`, `increment_turns`
and `save_summary` leave the store unchanged and `increment_turns`
returns 0; for a present id `increment_turns` returns the new turn
count and stores it. -/
theorem missing_task_mutations_noop (s : Store) (idT sid sum : String) :
    (s idT = none →
      update_session_id s idT sid = s ∧
      (increment_turns s idT).1 = s ∧
      (increment_turns s idT).2 = 0 ∧
      save_summary s idT sum = s) ∧
    (∀ t, s idT = some t →
      (increment_turns s idT).2 = t.turn_count + 1 ∧
      (increment_turns s idT).1 idT =
        some { t with turn_count := t.turn_count + 1 }) := by
  constructor
  · intro h
    refine ⟨?_, ?_, ?_, ?_⟩ <;>
      simp [update_session_id, increment_turns, save_summary, h]
  · intro t h
    constructor <;> simp [increment_turns, h]

/-- Witness for C10: the absent-id branch at id "zz" of `store0` and
the present-id branch at "t1". -/
theorem missing_task_mutations_noop_witness :
    (update_session_id store0 "zz" "sid" = store0 ∧
      (increment_turns store0 "zz").1 = store0 ∧
      (increment_turns store0 "zz").2 = 0 ∧
      save_summary store0 "zz" "S" = store0) ∧
    ((increment_turns store0 "t1").2 = task0.turn_count + 1 ∧
      (increment_turns store0 "t1").1 "t1" =
        some { task0 with turn_count := task0.turn_count + 1 }) :=
  ⟨(missing_task_mutations_noop store0 "zz" "sid" "S").1 (by decide),
   (missing_task_mutations_noop store0 "t1" "sid" "S").2 task0 (by decide)⟩

/-! ### C4 -/

/-- C4 counterexample: `task0` is Resumable with the turn counter at
the configured threshold (20), yet the Task mutation performed by a
successful `process` interaction leaves the summary absent and the
session pointer in place, merely incrementing the counter — no
transition to Compressed happens, even though committing a non-empty
summary (what the claimed compression invocation would do) transitions
as shown by `compressTask`. -/
theorem process_does_not_compress_counterexample :
    needs_compression 20 task0 = true ∧
    processTaskUpdate store0 "t1" "t1" =
      some { task0 with turn_count := 21 } ∧
    ({ task0 with turn_count := 21 } : Task).summary = none ∧
    ({ task0 with turn_count := 21 } : Task).session_id = some "s" ∧
    compressTask store0 "t1" ["S"] "t1" =
      some { task0 with summary := some "S"
                        session_id := none
                        turn_count := 0 } := by
  refine ⟨by decide, by decide, rfl, rfl, by decide⟩

/-- C4 amended: a successful `process` interaction on a task at or
above the compression threshold never invokes the Compression Policy
(auto-compression is disabled): it only increments the turn counter,
leaving summary and session pointer untouched.  Compression runs only
through the manual force-compress path, where an empty result leaves
the store unchanged and a non-empty result commits the Compressed
state (summary set, session pointer cleared, counter zeroed). -/
theorem process_increments_only_amended (s : Store) (idT : String)
    (t : Task) (th : Nat) (h : s idT = some t)
    (hneeds : needs_compression th t = true) :
    processTaskUpdate s idT idT =
      some { t with turn_count := t.turn_count + 1 } ∧
    compressTask s idT [] = s ∧
    (∀ p ps, ∃ t', compressTask s idT (p :: ps) idT = some t' ∧
      t'.summary = some (String.intercalate "\n" (p :: ps)) ∧
      t'.session_id = none ∧ t'.turn_count = 0) := by
  refine ⟨?_, rfl, ?_⟩
  · simp [processTaskUpdate, increment_turns, h]
  · intro p ps
    refine ⟨{ t with summary := some (String.intercalate "\n" (p :: ps))
                     session_id := none
                     turn_count := 0 }, ?_, rfl, rfl, rfl⟩
    simp [compressTask, save_summary, h]

/-- Witness for C4's amended theorem at `store0`. -/
theorem process_increments_only_amended_witness :
    processTaskUpdate store0 "t1" "t1" =
      some { task0 with turn_count := task0.turn_count + 1 } ∧
    compressTask store0 "t1" [] = store0 ∧
    (∀ p ps, ∃ t', compressTask store0 "t1" (p :: ps) "t1" = some t' ∧
      t'.summary = some (String.intercalate "\n" (p :: ps)) ∧
      t'.session_id = none ∧ t'.turn_count = 0) :=
  process_increments_only_amended store0 "t1" task0 20 (by decide) (by decide)

/-! ### C1 -/

/-- C1: the code violates the pairing invariant.  `exHistory` is a
well-paired 102-entry history, but trimming it to the 100-message
window used by `run` drops the assistant tool-call record while
keeping its paired `role:"tool"` result, leaving the trimmed window
unpaired. -/
theorem trim_breaks_tool_pairing :
    wellPaired exHistory = true ∧
    exHistory.length = 102 ∧
    wellPaired (trim_to_budget exHistory 100) = false ∧
    HMsg.tool "c1" "ok" ∈ trim_to_budget exHistory 100 ∧
    callIds (trim_to_budget exHistory 100) = [] := by
  refine ⟨by decide, by decide, by decide, by decide, by decide⟩

/-! ### C2 -/

/-- C2: the code violates the claim.  When the wall-clock budget
elapses, both handlers assemble a non-empty response text — the
Claude path even keeps the partial text, appending the notice to it
instead of discarding it — so the `if response.text:` epilogue calls
`self.memory.save_last_response`, an attribute `TaskMemory` does not
define, and every timed-out `process` call raises AttributeError to
the caller instead of returning the notice as response text.  The
message store still holds everything the run had persisted before the
timeout (here: the full first tool-calling iteration). -/
theorem timeout_raises_attribute_error :
    processClaudeText ["hi"] true 60 = "hi\n" ++ timeoutNotice 60 ∧
    processClaudeOutcome ["hi"] true 60 =
      Except.error
        "AttributeError: TaskMemory object has no attribute save_last_response" ∧
    (processOpenaiTimedOut [] "s" "u" streamsA0 execA0 1 60).1 =
      timeoutNotice 60 ∧
    (processOpenaiOutcome [] "s" "u" streamsA0 execA0 1 60).1 =
      Except.error
        "AttributeError: TaskMemory object has no attribute save_last_response" ∧
    (processOpenaiOutcome [] "s" "u" streamsA0 execA0 1 60).2 =
      (stepMsgs streamsA0 execA0)^[1]
        (initMessages [] "s" ++ [.user "u"]) := by
  refine ⟨by decide, rfl, rfl, rfl, rfl⟩

/-! ### C9 -/

/-- Replacing one present entry with a task of the same active flag
preserves the at-most-one-active invariant. -/
theorem atMostOne_pointUpdate (s : Store) (h : AtMostOneActive s)
    (idT : String) (t t' : Task) (hs : s idT = some t)
    (hact : t'.active = t.active) :
    AtMostOneActive (fun k => if k = idT then some t' else s k) := by
  intro i j ti tj hi hj hti htj
  by_cases hiI : i = idT <;> by_cases hjI : j = idT
  · rw [hiI, hjI]
  · simp only [hiI, if_pos rfl] at hi
    simp only [if_neg hjI] at hj
    obtain rfl : t' = ti := by injection hi
    exact hiI.trans (h idT j t tj hs hj (hact ▸ hti) htj)
  · simp only [hjI, if_pos rfl] at hj
    simp only [if_neg hiI] at hi
    obtain rfl : t' = tj := by injection hj
    exact (h i idT ti t hi hs hti (hact ▸ htj)).trans hjI.symm
  · simp only [if_neg hiI] at hi
    simp only [if_neg hjI] at hj
    exact h i j ti tj hi hj hti htj

/-- `create_task` always leaves at most one active task. -/
theorem create_task_atMostOne (s : Store) (idT nm c : String) :
    AtMostOneActive (create_task s idT nm c) := by
  intro i j ti tj hi hj hti htj
  by_cases hiI : i = idT <;> by_cases hjI : j = idT
  · rw [hiI, hjI]
  · exfalso
    simp only [create_task, if_neg hjI, Option.map_eq_some'] at hj
    obtain ⟨u, _, rfl⟩ := hj
    simp [deactivate] at htj
  · exfalso
    simp only [create_task, if_neg hiI, Option.map_eq_some'] at hi
    obtain ⟨u, _, rfl⟩ := hi
    simp [deactivate] at hti
  · exfalso
    simp only [create_task, if_neg hiI, Option.map_eq_some'] at hi
    obtain ⟨u, _, rfl⟩ := hi
    simp [deactivate] at hti

/-- `set_active` on a present id always leaves at most one active
task. -/
theorem set_active_atMostOne (s : Store) (idT : String) (t : Task)
    (hs : s idT = some t) : AtMostOneActive (set_active s idT) := by
  intro i j ti tj hi hj hti htj
  simp only [set_active, hs] at hi hj
  by_cases hiI : i = idT <;> by_cases hjI : j = idT
  · rw [hiI, hjI]
  · exfalso
    simp only [if_neg hjI, Option.map_eq_some'] at hj
    obtain ⟨u, _, rfl⟩ := hj
    simp [deactivate] at htj
  · exfalso
    simp only [if_neg hiI, Option.map_eq_some'] at hi
    obtain ⟨u, _, rfl⟩ := hi
    simp [deactivate] at hti
  · exfalso
    simp only [if_neg hiI, Option.map_eq_some'] at hi
    obtain ⟨u, _, rfl⟩ := hi
    simp [deactivate] at hti

/-- Every store reachable through the TaskMemory operations has at
most one active task. -/
theorem reachable_atMostOneActive (s : Store) (h : Reachable s) :
    AtMostOneActive s := by
  induction h with
  | empty => intro i j ti tj hi _ _ _; simp [emptyStore] at hi
  | create s' idT nm c _ _ => exact create_task_atMostOne s' idT nm c
  | setActive s' idT _ ih =>
      rcases hs : s' idT with - | t
      · simpa [set_active, hs] using ih
      · exact set_active_atMostOne s' idT t hs
  | updateSession s' idT sid _ ih =>
      rcases hs : s' idT with - | t
      · simpa [update_session_id, hs] using ih
      · simpa [update_session_id, hs] using
          atMostOne_pointUpdate s' ih idT t
            { t with session_id := some sid } hs rfl
  | increment s' idT _ ih =>
      rcases hs : s' idT with - | t
      · simpa [increment_turns, hs] using ih
      · simpa [increment_turns, hs] using
          atMostOne_pointUpdate s' ih idT t
            { t with turn_count := t.turn_count + 1 } hs rfl
  | saveSummary s' idT sum _ ih =>
      rcases hs : s' idT with - | t
      · simpa [save_summary, hs] using ih
      · simpa [save_summary, hs] using
          atMostOne_pointUpdate s' ih idT t
            { t with summary := some sum, session_id := none, turn_count := 0 }
            hs rfl
  | delete s' idT _ ih =>
      rcases hs : s' idT with - | t
      · simpa [delete_task, hs] using ih
      · intro i j ti tj hi hj hti htj
        simp only [delete_task, hs] at hi hj
        by_cases hiI : i = idT
        · simp [if_pos hiI] at hi
        · by_cases hjI : j = idT
          · simp [if_pos hjI] at hj
          · simp only [if_neg hiI] at hi
            simp only [if_neg hjI] at hj
            exact ih i j ti tj hi hj hti htj

/-- C9: every reachable store has at most one active task, and
creating a task or setting a present task active deactivates every
other task in the same step. -/
theorem at_most_one_active_invariant (s : Store) (h : Reachable s) :
    AtMostOneActive s ∧
    (∀ idT nm c k t', k ≠ idT → create_task s idT nm c k = some t' →
      t'.active = false) ∧
    (∀ idT t k t', s idT = some t → k ≠ idT →
      set_active s idT k = some t' → t'.active = false) := by
  refine ⟨reachable_atMostOneActive s h, ?_, ?_⟩
  · intro idT nm c k t' hk hkt
    simp only [create_task, if_neg hk, Option.map_eq_some'] at hkt
    obtain ⟨u, _, rfl⟩ := hkt
    rfl
  · intro idT t k t' hs hk hkt
    simp only [set_active, hs, if_neg hk, Option.map_eq_some'] at hkt
    obtain ⟨u, _, rfl⟩ := hkt
    rfl

/-- Witness for C9 at a store built by one `create_task` from the
empty store. -/
theorem at_most_one_active_invariant_witness :
    AtMostOneActive (create_task emptyStore "t1" "demo" "c") ∧
    (∀ idT nm c k t', k ≠ idT →
      create_task (create_task emptyStore "t1" "demo" "c") idT nm c k =
        some t' → t'.active = false) ∧
    (∀ idT t k t', create_task emptyStore "t1" "demo" "c" idT = some t →
      k ≠ idT → set_active (create_task emptyStore "t1" "demo" "c") idT k =
        some t' → t'.active = false) :=
  at_most_one_active_invariant (create_task emptyStore "t1" "demo" "c")
    (Reachable.create emptyStore "t1" "demo" "c" Reachable.empty)

/-! ### C3 -/

/-- The `run_codex` loop only ever extends the history it was given. -/
theorem runCodexLoop_extends (streams : List HMsg → List BEvent)
    (exec : FuncCall → String) :
    ∀ (n : Nat) (items hist : List HMsg) (res : OpenAIResult)
      (lt : String), ∃ tail,
      (runCodexLoop streams exec n items hist res lt).2 = hist ++ tail := by
  intro n
  induction n with
  | zero => intro items hist res lt; exact ⟨[], by simp [runCodexLoop]⟩
  | succ n ih =>
      intro items hist res lt
      by_cases hfc : (streamResponses (streams items)).funcCalls = []
      · by_cases ht : (streamResponses (streams items)).text ≠ ""
        · exact ⟨[.assistant (streamResponses (streams items)).text],
            by simp [runCodexLoop, hfc, ht]⟩
        · exact ⟨[], by simp [runCodexLoop, hfc, ht]⟩
      · obtain ⟨tail, htail⟩ := ih (stepItems streams exec items)
          (hist ++ newItemsB streams exec items)
          { codexAccum res (streamResponses (streams items)) with
              tool_uses :=
                (codexAccum res (streamResponses (streams items))).tool_uses ++
                  (streamResponses (streams items)).funcCalls.map (·.name) }
          (streamResponses (streams items)).text
        refine ⟨newItemsB streams exec items ++ tail, ?_⟩
        rw [← List.append_assoc, ← htail]
        simp [runCodexLoop, hfc]

/-- C3 counterexample: a text-only adapter-B round trip (one text
delta "hi", the completed assistant message item, and the terminal
event) persists a synthesized `role:"assistant"` entry built from the
accumulated deltas — the completed output item itself is not appended
to the persisted sequence. -/
theorem codex_text_item_not_verbatim_counterexample :
    (runCodex [] "q" streamsB0 execB0).2 = [.user "q", .assistant "hi"] ∧
    HMsg.item msgItem0 ∉ (runCodex [] "q" streamsB0 execB0).2 := by
  exact ⟨by decide, by decide⟩

/-- C3 amended: on a round trip reporting at least one function call,
every completed output item is appended verbatim (in delivery order)
to both the persisted history and the replay input, followed by the
synthesized `function_call_output` records; on a round trip with no
function calls, the completed items are not appended — the accumulated
delta text is appended as a synthesized assistant message when
non-empty; and the loop only ever extends the persisted sequence. -/
theorem codex_append_amended (streams : List HMsg → List BEvent)
    (exec : FuncCall → String) (n : Nat) (items hist : List HMsg)
    (res : OpenAIResult) (lt : String) :
    ((streamResponses (streams items)).funcCalls = [] →
      (runCodexLoop streams exec (n + 1) items hist res lt).2 =
        hist ++ (if (streamResponses (streams items)).text ≠ ""
          then [.assistant (streamResponses (streams items)).text]
          else [])) ∧
    ((streamResponses (streams items)).funcCalls ≠ [] →
      runCodexLoop streams exec (n + 1) items hist res lt =
        runCodexLoop streams exec n
          (items ++ (streamResponses (streams items)).outputItems.map
            HMsg.item ++ fcOutputs exec (streamResponses (streams items)).funcCalls)
          (hist ++ (streamResponses (streams items)).outputItems.map
            HMsg.item ++ fcOutputs exec (streamResponses (streams items)).funcCalls)
          { codexAccum res (streamResponses (streams items)) with
              tool_uses :=
                (codexAccum res (streamResponses (streams items))).tool_uses ++
                  (streamResponses (streams items)).funcCalls.map (·.name) }
          (streamResponses (streams items)).text) ∧
    (∃ tail, (runCodexLoop streams exec n items hist res lt).2 =
      hist ++ tail) := by
  refine ⟨?_, ?_, runCodexLoop_extends streams exec n items hist res lt⟩
  · intro hfc
    by_cases ht : (streamResponses (streams items)).text ≠ "" <;>
      simp [runCodexLoop, hfc, ht]
  · intro hfc
    simp [runCodexLoop, hfc, stepItems, newItemsB, List.append_assoc]

/-- Witness for C3's amended theorem: the function-call branch at
`streamsB1` and the text-only branch at `streamsB0`. -/
theorem codex_append_amended_witness :
    (runCodexLoop streamsB0 execB0 1 [.user "q"] [.user "q"]
        .init "").2 =
      [.user "q"] ++ (if (streamResponses (streamsB0 [.user "q"])).text ≠ ""
        then [.assistant (streamResponses (streamsB0 [.user "q"])).text]
        else []) ∧
    runCodexLoop streamsB1 execB0 1 [.user "q"] [.user "q"] .init "" =
      runCodexLoop streamsB1 execB0 0
        ([.user "q"] ++ (streamResponses (streamsB1 [.user "q"])).outputItems.map
          HMsg.item ++ fcOutputs execB0 (streamResponses (streamsB1 [.user "q"])).funcCalls)
        ([.user "q"] ++ (streamResponses (streamsB1 [.user "q"])).outputItems.map
          HMsg.item ++ fcOutputs execB0 (streamResponses (streamsB1 [.user "q"])).funcCalls)
        { codexAccum .init (streamResponses (streamsB1 [.user "q"])) with
            tool_uses :=
              (codexAccum .init (streamResponses (streamsB1 [.user "q"]))).tool_uses ++
                (streamResponses (streamsB1 [.user "q"])).funcCalls.map (·.name) }
        (streamResponses (streamsB1 [.user "q"])).text :=
  ⟨(codex_append_amended streamsB0 execB0 0 [.user "q"] [.user "q"]
      .init "").1 (by decide),
   (codex_append_amended streamsB1 execB0 0 [.user "q"] [.user "q"]
      .init "").2.1 (by decide)⟩

/-! ### C5 -/

/-- The round-trip oracle commutes with one loop step. -/
theorem usageAtA_succ (streams : List HMsg → List Chunk)
    (exec : ToolCall → String) (k : Nat) (msgs : List HMsg) :
    usageAtA streams exec (k + 1) msgs =
      usageAtA streams exec k (stepMsgs streams exec msgs) := by
  simp [usageAtA, msgsAt, Function.iterate_succ_apply]

/-- Same commutation for the round-trip text. -/
theorem textAt_succ (streams : List HMsg → List Chunk)
    (exec : ToolCall → String) (k : Nat) (msgs : List HMsg) :
    textAt streams exec (k + 1) msgs =
      textAt streams exec k (stepMsgs streams exec msgs) := by
  simp [textAt, msgsAt, Function.iterate_succ_apply]

/-- Unfolding equation of `runLoop` for a round trip that reported
tool calls. -/
theorem runLoop_step (streams : List HMsg → List Chunk)
    (exec : ToolCall → String) (n : Nat) (msgs : List HMsg)
    (res : OpenAIResult) (lt : String)
    (hfc : resolve (streamCompletion (streams msgs)).acc ≠ []) :
    runLoop streams exec (n + 1) msgs res lt =
      runLoop streams exec n (stepMsgs streams exec msgs)
        { accumA res (streamCompletion (streams msgs)) with
            tool_uses := res.tool_uses ++
              (resolve (streamCompletion (streams msgs)).acc).map (·.name) }
        (streamCompletion (streams msgs)).text := by
  simp [runLoop, hfc]

/-- Unfolding equation of `runLoop` for a round trip with no tool
calls. -/
theorem runLoop_done (streams : List HMsg → List Chunk)
    (exec : ToolCall → String) (n : Nat) (msgs : List HMsg)
    (res : OpenAIResult) (lt : String)
    (hfc : resolve (streamCompletion (streams msgs)).acc = []) :
    runLoop streams exec (n + 1) msgs res lt =
      ({ accumA res (streamCompletion (streams msgs)) with
          text := (streamCompletion (streams msgs)).text },
       if (streamCompletion (streams msgs)).text ≠ "" then
         msgs ++ [.assistant (streamCompletion (streams msgs)).text]
       else msgs) := by
  simp [runLoop, hfc]

/-- When every round trip reports at least one tool call, the loop
consumes all its fuel, counting one turn per iteration, and ends with
the last round trip's text plus the limit notice. -/
theorem runLoop_allTools (streams : List HMsg → List Chunk)
    (exec : ToolCall → String)
    (h : ∀ m, resolve (streamCompletion (streams m)).acc ≠ []) :
    ∀ (n : Nat) (msgs : List HMsg) (res : OpenAIResult) (lt : String),
      (runLoop streams exec (n + 1) msgs res lt).1.num_turns =
        res.num_turns + (n + 1) ∧
      (runLoop streams exec (n + 1) msgs res lt).1.text =
        textAt streams exec n msgs ++ iterationLimitNotice := by
  intro n
  induction n with
  | zero =>
      intro msgs res lt
      rw [runLoop_step streams exec 0 msgs res lt (h msgs)]
      constructor
      · simp [runLoop, accumA]
      · simp [runLoop, textAt, msgsAt]
  | succ n ih =>
      intro msgs res lt
      rw [runLoop_step streams exec (n + 1) msgs res lt (h msgs)]
      obtain ⟨ihn, iht⟩ := ih (stepMsgs streams exec msgs)
        { accumA res (streamCompletion (streams msgs)) with
            tool_uses := res.tool_uses ++
              (resolve (streamCompletion (streams msgs)).acc).map (·.name) }
        (streamCompletion (streams msgs)).text
      refine ⟨?_, ?_⟩
      · rw [ihn]; simp [accumA]; omega
      · rw [iht, textAt_succ]

/-- C5: for every provider that reports at least one tool call on
every round trip, `run` performs exactly `MAX_TOOL_ITERATIONS` (25)
iterations — never more — and returns normally with the last round
trip's text plus the fixed iteration-limit notice. -/
theorem iteration_ceiling_reached (stored : List HMsg)
    (sys userMsg : String) (streams : List HMsg → List Chunk)
    (exec : ToolCall → String)
    (h : ∀ m, resolve (streamCompletion (streams m)).acc ≠ []) :
    (run stored sys userMsg streams exec).1.num_turns =
      MAX_TOOL_ITERATIONS ∧
    (run stored sys userMsg streams exec).1.text =
      textAt streams exec (MAX_TOOL_ITERATIONS - 1)
        (initMessages stored sys ++ [.user userMsg]) ++
        iterationLimitNotice := by
  have hmain := runLoop_allTools streams exec h 24
    (initMessages stored sys ++ [.user userMsg]) .init ""
  constructor
  · have := hmain.1
    simpa [run, MAX_TOOL_ITERATIONS, OpenAIResult.init] using this
  · have := hmain.2
    simpa [run, MAX_TOOL_ITERATIONS, OpenAIResult.init] using this

/-- Witness for C5: a provider answering every round trip with the
same single tool call. -/
theorem iteration_ceiling_reached_witness :
    (run [] "s" "u" streamsA0 execA0).1.num_turns = MAX_TOOL_ITERATIONS ∧
    (run [] "s" "u" streamsA0 execA0).1.text =
      textAt streamsA0 execA0 (MAX_TOOL_ITERATIONS - 1)
        (initMessages [] "s" ++ [.user "u"]) ++ iterationLimitNotice :=
  iteration_ceiling_reached [] "s" "u" streamsA0 execA0
    (fun m => by
      show resolve (streamCompletion [chunkTool, chunkUsage]).acc ≠ []
      decide)

/-! ### C7 -/

/-- The `run` loop counts one turn per performed iteration and sums
the per-iteration usages reported by the adapter. -/
theorem runLoop_usage_sums (streams : List HMsg → List Chunk)
    (exec : ToolCall → String) :
    ∀ (n : Nat) (msgs : List HMsg) (res : OpenAIResult) (lt : String),
      (runLoop streams exec n msgs res lt).1.num_turns =
        res.num_turns + loopIters streams exec n msgs ∧
      (runLoop streams exec n msgs res lt).1.input_tokens =
        res.input_tokens +
          ((List.range (loopIters streams exec n msgs)).map
            (fun i => (usageAtA streams exec i msgs).input)).sum ∧
      (runLoop streams exec n msgs res lt).1.output_tokens =
        res.output_tokens +
          ((List.range (loopIters streams exec n msgs)).map
            (fun i => (usageAtA streams exec i msgs).output)).sum := by
  intro n
  induction n with
  | zero =>
      intro msgs res lt
      simp [runLoop, loopIters]
  | succ n ih =>
      intro msgs res lt
      by_cases hfc : resolve (streamCompletion (streams msgs)).acc = []
      · rw [runLoop_done streams exec n msgs res lt hfc]
        have h1 : loopIters streams exec (n + 1) msgs = 1 := by
          simp [loopIters, hfc]
        simp [h1, accumA, usageAtA, msgsAt, List.range_succ]
      · rw [runLoop_step streams exec n msgs res lt hfc]
        obtain ⟨ihn, ihi, iho⟩ := ih (stepMsgs streams exec msgs)
          { accumA res (streamCompletion (streams msgs)) with
              tool_uses := res.tool_uses ++
                (resolve (streamCompletion (streams msgs)).acc).map (·.name) }
          (streamCompletion (streams msgs)).text
        have h1 : loopIters streams exec (n + 1) msgs =
            loopIters streams exec n (stepMsgs streams exec msgs) + 1 := by
          simp [loopIters, hfc, Nat.add_comm]
        have hrange : ∀ f : Nat → Nat,
            ((List.range (loopIters streams exec n
                (stepMsgs streams exec msgs) + 1)).map f).sum =
              f 0 + ((List.range (loopIters streams exec n
                (stepMsgs streams exec msgs))).map (fun i => f (i + 1))).sum := by
          intro f
          rw [List.range_succ_eq_map]
          simp only [List.map_cons, List.map_map, List.sum_cons]
          rfl
        refine ⟨?_, ?_, ?_⟩
        · rw [ihn, h1]; simp [accumA]; omega
        · rw [ihi, h1, hrange]
          have : ∀ i, (usageAtA streams exec (i + 1) msgs).input =
              (usageAtA streams exec i (stepMsgs streams exec msgs)).input := by
            intro i; rw [usageAtA_succ]
          simp only [this]
          simp [accumA, usageAtA, msgsAt]
          omega
        · rw [iho, h1, hrange]
          have : ∀ i, (usageAtA streams exec (i + 1) msgs).output =
              (usageAtA streams exec i (stepMsgs streams exec msgs)).output := by
            intro i; rw [usageAtA_succ]
          simp only [this]
          simp [accumA, usageAtA, msgsAt]
          omega

/-- The adapter-B round-trip oracle commutes with one loop step. -/
theorem usageAtB_succ (streams : List HMsg → List BEvent)
    (exec : FuncCall → String) (k : Nat) (items : List HMsg) :
    usageAtB streams exec (k + 1) items =
      usageAtB streams exec k (stepItems streams exec items) := by
  simp [usageAtB, Function.iterate_succ_apply]

/-- Unfolding equation of `runCodexLoop` for a round trip that
reported function calls. -/
theorem runCodexLoop_step (streams : List HMsg → List BEvent)
    (exec : FuncCall → String) (n : Nat) (items hist : List HMsg)
    (res : OpenAIResult) (lt : String)
    (hfc : (streamResponses (streams items)).funcCalls ≠ []) :
    runCodexLoop streams exec (n + 1) items hist res lt =
      runCodexLoop streams exec n (stepItems streams exec items)
        (hist ++ newItemsB streams exec items)
        { codexAccum res (streamResponses (streams items)) with
            tool_uses :=
              (codexAccum res (streamResponses (streams items))).tool_uses ++
                (streamResponses (streams items)).funcCalls.map (·.name) }
        (streamResponses (streams items)).text := by
  simp [runCodexLoop, hfc]

/-- Unfolding equation of `runCodexLoop` for a round trip with no
function calls. -/
theorem runCodexLoop_done (streams : List HMsg → List BEvent)
    (exec : FuncCall → String) (n : Nat) (items hist : List HMsg)
    (res : OpenAIResult) (lt : String)
    (hfc : (streamResponses (streams items)).funcCalls = []) :
    runCodexLoop streams exec (n + 1) items hist res lt =
      ({ codexAccum res (streamResponses (streams items)) with
          text := (streamResponses (streams items)).text },
       if (streamResponses (streams items)).text ≠ "" then
         hist ++ [.assistant (streamResponses (streams items)).text]
       else hist) := by
  simp [runCodexLoop, hfc]

/-- The `run_codex` loop counts one turn per performed iteration and
sums the per-iteration usages of the `response.completed` events. -/
theorem runCodexLoop_usage_sums (streams : List HMsg → List BEvent)
    (exec : FuncCall → String) :
    ∀ (n : Nat) (items hist : List HMsg) (res : OpenAIResult)
      (lt : String),
      (runCodexLoop streams exec n items hist res lt).1.num_turns =
        res.num_turns + loopItersB streams exec n items ∧
      (runCodexLoop streams exec n items hist res lt).1.input_tokens =
        res.input_tokens +
          ((List.range (loopItersB streams exec n items)).map
            (fun i => (usageAtB streams exec i items).input)).sum ∧
      (runCodexLoop streams exec n items hist res lt).1.output_tokens =
        res.output_tokens +
          ((List.range (loopItersB streams exec n items)).map
            (fun i => (usageAtB streams exec i items).output)).sum := by
  intro n
  induction n with
  | zero =>
      intro items hist res lt
      simp [runCodexLoop, loopItersB]
  | succ n ih =>
      intro items hist res lt
      by_cases hfc : (streamResponses (streams items)).funcCalls = []
      · rw [runCodexLoop_done streams exec n items hist res lt hfc]
        have h1 : loopItersB streams exec (n + 1) items = 1 := by
          simp [loopItersB, hfc]
        simp [h1, codexAccum, usageAtB, List.range_succ]
      · rw [runCodexLoop_step streams exec n items hist res lt hfc]
        obtain ⟨ihn, ihi, iho⟩ := ih (stepItems streams exec items)
          (hist ++ newItemsB streams exec items)
          { codexAccum res (streamResponses (streams items)) with
              tool_uses :=
                (codexAccum res (streamResponses (streams items))).tool_uses ++
                  (streamResponses (streams items)).funcCalls.map (·.name) }
          (streamResponses (streams items)).text
        have h1 : loopItersB streams exec (n + 1) items =
            loopItersB streams exec n (stepItems streams exec items) + 1 := by
          simp [loopItersB, hfc, Nat.add_comm]
        have hrange : ∀ f : Nat → Nat,
            ((List.range (loopItersB streams exec n
                (stepItems streams exec items) + 1)).map f).sum =
              f 0 + ((List.range (loopItersB streams exec n
                (stepItems streams exec items))).map
                  (fun i => f (i + 1))).sum := by
          intro f
          rw [List.range_succ_eq_map]
          simp only [List.map_cons, List.map_map, List.sum_cons]
          rfl
        refine ⟨?_, ?_, ?_⟩
        · rw [ihn, h1]; simp [codexAccum]; omega
        · rw [ihi, h1, hrange]
          have hs : ∀ i, (usageAtB streams exec (i + 1) items).input =
              (usageAtB streams exec i (stepItems streams exec items)).input := by
            intro i; rw [usageAtB_succ]
          simp only [hs]
          simp [codexAccum, usageAtB]
          omega
        · rw [iho, h1, hrange]
          have hs : ∀ i, (usageAtB streams exec (i + 1) items).output =
              (usageAtB streams exec i (stepItems streams exec items)).output := by
            intro i; rw [usageAtB_succ]
          simp only [hs]
          simp [codexAccum, usageAtB]
          omega

/-- A chunk's usage frame overwrites the adapter-A running total. -/
theorem scStep_usage (st : SCState) (c : Chunk) :
    (scStep st c).usage = c.usage.getD st.usage := by
  rcases c with ⟨u, d⟩
  rcases u with - | u <;> rcases d with - | d <;>
    simp [scStep] <;> split <;> rfl

/-- C7: across the whole tool-calling loop, the returned token totals
are the sums of the per-iteration usages reported by the adapter, and
the round-trip count is the number of iterations performed; within one
round trip, a final usage frame of adapter A overwrites the running
total, and each `response.completed` event of adapter B overwrites the
round trip's usage. -/
theorem token_totals_sum_per_iteration (stored : List HMsg)
    (sys userMsg : String) (streams : List HMsg → List Chunk)
    (exec : ToolCall → String) (streamsB : List HMsg → List BEvent)
    (execB : FuncCall → String) (chunks : List Chunk) (c : Chunk)
    (u v : Usage) (events : List BEvent) (idR : String)
    (hc : c.usage = some u) :
    ((run stored sys userMsg streams exec).1.num_turns =
        loopIters streams exec MAX_TOOL_ITERATIONS
          (initMessages stored sys ++ [.user userMsg]) ∧
      (run stored sys userMsg streams exec).1.input_tokens =
        ((List.range (loopIters streams exec MAX_TOOL_ITERATIONS
            (initMessages stored sys ++ [.user userMsg]))).map
          (fun i => (usageAtA streams exec i
            (initMessages stored sys ++ [.user userMsg])).input)).sum ∧
      (run stored sys userMsg streams exec).1.output_tokens =
        ((List.range (loopIters streams exec MAX_TOOL_ITERATIONS
            (initMessages stored sys ++ [.user userMsg]))).map
          (fun i => (usageAtA streams exec i
            (initMessages stored sys ++ [.user userMsg])).output)).sum) ∧
    (streamCompletion (chunks ++ [c])).usage = u ∧
    ((runCodex stored userMsg streamsB execB).1.num_turns =
        loopItersB streamsB execB MAX_TOOL_ITERATIONS
          (stored ++ [.user userMsg]) ∧
      (runCodex stored userMsg streamsB execB).1.input_tokens =
        ((List.range (loopItersB streamsB execB MAX_TOOL_ITERATIONS
            (stored ++ [.user userMsg]))).map
          (fun i => (usageAtB streamsB execB i
            (stored ++ [.user userMsg])).input)).sum ∧
      (runCodex stored userMsg streamsB execB).1.output_tokens =
        ((List.range (loopItersB streamsB execB MAX_TOOL_ITERATIONS
            (stored ++ [.user userMsg]))).map
          (fun i => (usageAtB streamsB execB i
            (stored ++ [.user userMsg])).output)).sum) ∧
    (streamResponses (events ++ [.completed idR v])).usage = v := by
  refine ⟨?_, ?_, ?_, ?_⟩
  · obtain ⟨hn, hi, ho⟩ := runLoop_usage_sums streams exec
      MAX_TOOL_ITERATIONS (initMessages stored sys ++ [.user userMsg])
      .init ""
    refine ⟨?_, ?_, ?_⟩
    · simpa [run, OpenAIResult.init] using hn
    · simpa [run, OpenAIResult.init] using hi
    · simpa [run, OpenAIResult.init] using ho
  · rw [streamCompletion, List.foldl_append]
    simp [scStep_usage, hc]
  · obtain ⟨hn, hi, ho⟩ := runCodexLoop_usage_sums streamsB execB
      MAX_TOOL_ITERATIONS (stored ++ [.user userMsg])
      (stored ++ [.user userMsg]) .init ""
    refine ⟨?_, ?_, ?_⟩
    · simpa [runCodex, OpenAIResult.init] using hn
    · simpa [runCodex, OpenAIResult.init] using hi
    · simpa [runCodex, OpenAIResult.init] using ho
  · rw [streamResponses, List.foldl_append]
    simp [srStep]

/-- Witness for C7 at concrete providers and a concrete final usage
frame. -/
theorem token_totals_sum_per_iteration_witness :
    ((run [] "s" "u" streamsA0 execA0).1.num_turns =
        loopIters streamsA0 execA0 MAX_TOOL_ITERATIONS
          (initMessages [] "s" ++ [.user "u"]) ∧
      (run [] "s" "u" streamsA0 execA0).1.input_tokens =
        ((List.range (loopIters streamsA0 execA0 MAX_TOOL_ITERATIONS
            (initMessages [] "s" ++ [.user "u"]))).map
          (fun i => (usageAtA streamsA0 execA0 i
            (initMessages [] "s" ++ [.user "u"])).input)).sum ∧
      (run [] "s" "u" streamsA0 execA0).1.output_tokens =
        ((List.range (loopIters streamsA0 execA0 MAX_TOOL_ITERATIONS
            (initMessages [] "s" ++ [.user "u"]))).map
          (fun i => (usageAtA streamsA0 execA0 i
            (initMessages [] "s" ++ [.user "u"])).output)).sum) ∧
    (streamCompletion ([] ++ [chunkUsage])).usage = ⟨3, 2⟩ ∧
    ((runCodex [] "u" streamsB0 execB0).1.num_turns =
        loopItersB streamsB0 execB0 MAX_TOOL_ITERATIONS
          ([] ++ [.user "u"]) ∧
      (runCodex [] "u" streamsB0 execB0).1.input_tokens =
        ((List.range (loopItersB streamsB0 execB0 MAX_TOOL_ITERATIONS
            ([] ++ [.user "u"]))).map
          (fun i => (usageAtB streamsB0 execB0 i
            ([] ++ [.user "u"])).input)).sum ∧
      (runCodex [] "u" streamsB0 execB0).1.output_tokens =
        ((List.range (loopItersB streamsB0 execB0 MAX_TOOL_ITERATIONS
            ([] ++ [.user "u"]))).map
          (fun i => (usageAtB streamsB0 execB0 i
            ([] ++ [.user "u"])).output)).sum) ∧
    (streamResponses ([] ++ [.completed "r9" ⟨7, 8⟩])).usage = ⟨7, 8⟩ :=
  token_totals_sum_per_iteration [] "s" "u" streamsA0 execA0 streamsB0
    execB0 [] chunkUsage ⟨3, 2⟩ ⟨7, 8⟩ [] "r9" rfl

/-! ### C6 -/

/-- One chunk folds exactly its own tool-call fragments into the
accumulator. -/
theorem scStep_acc (st : SCState) (c : Chunk) :
    (scStep st c).acc = (chunkDeltas c).foldl updateAssoc st.acc := by
  rcases c with ⟨u, d⟩
  rcases u with - | u <;> rcases d with - | d <;>
    simp [scStep, chunkDeltas] <;> split <;> rfl

/-- `allDeltas` distributes over cons. -/
theorem allDeltas_cons (c : Chunk) (cs : List Chunk) :
    allDeltas (c :: cs) = chunkDeltas c ++ allDeltas cs := by
  simp [allDeltas]

/-- Folding a chunk stream folds the concatenation of all fragment
lists, in arrival order. -/
theorem foldl_scStep_acc (chunks : List Chunk) :
    ∀ st : SCState, (chunks.foldl scStep st).acc =
      (allDeltas chunks).foldl updateAssoc st.acc := by
  induction chunks with
  | nil => intro st; simp [allDeltas]
  | cons c cs ih =>
      intro st
      simp only [List.foldl_cons]
      rw [ih (scStep st c), scStep_acc, allDeltas_cons, List.foldl_append]

/-- The accumulator of a full stream is the fold of all fragments. -/
theorem streamCompletion_acc (chunks : List Chunk) :
    (streamCompletion chunks).acc =
      (allDeltas chunks).foldl updateAssoc [] := by
  rw [streamCompletion, foldl_scStep_acc]

/-- Keys after merging one fragment: unchanged when the index is
known, appended otherwise. -/
theorem keys_updateAssoc (acc : List (Nat × ToolCall)) (d : TCDelta) :
    (updateAssoc acc d).map Prod.fst =
      if d.index ∈ acc.map Prod.fst then acc.map Prod.fst
      else acc.map Prod.fst ++ [d.index] := by
  induction acc with
  | nil => simp [updateAssoc]
  | cons p rest ih =>
      rcases p with ⟨j, tc⟩
      by_cases hj : d.index = j
      · subst hj; simp [updateAssoc]
      · simp only [updateAssoc, if_neg hj, List.map_cons]
        rw [ih]
        by_cases hmem : d.index ∈ rest.map Prod.fst
        · simp [hmem, hj]
        · simp [hmem, hj]

/-- Lookup after merging a fragment at its own index. -/
theorem lookup_updateAssoc_self (acc : List (Nat × ToolCall))
    (d : TCDelta) :
    (updateAssoc acc d).lookup d.index =
      some (applyDelta ((acc.lookup d.index).getD emptyCall) d) := by
  induction acc with
  | nil => simp [updateAssoc, List.lookup]
  | cons p rest ih =>
      rcases p with ⟨j, tc⟩
      by_cases hj : d.index = j
      · subst hj
        simp [updateAssoc, List.lookup]
      · have hbeq : (d.index == j) = false := by
          simpa using hj
        simp [updateAssoc, if_neg hj, List.lookup, hbeq, ih]

/-- Lookup after merging a fragment at a different index. -/
theorem lookup_updateAssoc_other (acc : List (Nat × ToolCall))
    (d : TCDelta) (i : Nat) (h : i ≠ d.index) :
    (updateAssoc acc d).lookup i = acc.lookup i := by
  have hbeq : (i == d.index) = false := by simpa using h
  induction acc with
  | nil => simp [updateAssoc, List.lookup, hbeq]
  | cons p rest ih =>
      rcases p with ⟨j, tc⟩
      by_cases hj : d.index = j
      · subst hj
        simp [updateAssoc, List.lookup, hbeq]
      · simp only [updateAssoc, if_neg hj]
        by_cases hij : i = j
        · subst hij
          have : (i == i) = true := by simp
          simp [List.lookup, this]
        · have hbij : (i == j) = false := by simpa using hij
          simp [List.lookup, hbij, ih]

/-- Lookup in a fold of fragments: the fragments addressed to the
index are merged, in order, on top of the entry the accumulator
already had. -/
theorem lookup_foldl_updateAssoc (ds : List TCDelta) :
    ∀ (acc : List (Nat × ToolCall)) (i : Nat),
      (ds.foldl updateAssoc acc).lookup i =
        match acc.lookup i with
        | some tc =>
            some ((ds.filter (fun d => d.index == i)).foldl applyDelta tc)
        | none =>
            if ds.filter (fun d => d.index == i) = [] then none
            else some ((ds.filter (fun d => d.index == i)).foldl
              applyDelta emptyCall) := by
  induction ds with
  | nil =>
      intro acc i
      cases h : acc.lookup i <;> simp [h]
  | cons d ds ih =>
      intro acc i
      simp only [List.foldl_cons]
      rw [ih (updateAssoc acc d) i]
      by_cases hi : d.index = i
      · subst hi
        have hf : (d :: ds).filter (fun x => x.index == d.index) =
            d :: ds.filter (fun x => x.index == d.index) := by
          simp [List.filter_cons]
        rw [lookup_updateAssoc_self, hf]
        cases h : acc.lookup d.index <;> simp [h, List.foldl_cons]
      · have hbeq : (d.index == i) = false := by simpa using hi
        have hf : (d :: ds).filter (fun x => x.index == i) =
            ds.filter (fun x => x.index == i) := by
          simp [List.filter_cons, hbeq]
        rw [lookup_updateAssoc_other acc d i (fun he => hi he.symm), hf]

/-- Key membership in a fold of fragments. -/
theorem keys_foldl_mem (ds : List TCDelta) :
    ∀ (acc : List (Nat × ToolCall)) (i : Nat),
      i ∈ (ds.foldl updateAssoc acc).map Prod.fst ↔
        i ∈ acc.map Prod.fst ∨ i ∈ ds.map (·.index) := by
  induction ds with
  | nil => intro acc i; simp
  | cons d ds ih =>
      intro acc i
      simp only [List.foldl_cons, List.map_cons, List.mem_cons]
      rw [ih, keys_updateAssoc]
      by_cases hmem : d.index ∈ acc.map Prod.fst
      · simp only [if_pos hmem]
        constructor
        · rintro (h | h)
          · exact Or.inl h
          · exact Or.inr (Or.inr h)
        · rintro (h | rfl | h)
          · exact Or.inl h
          · exact Or.inl hmem
          · exact Or.inr h
      · simp only [if_neg hmem, List.mem_append, List.mem_singleton]
        constructor
        · rintro ((h | rfl) | h)
          · exact Or.inl h
          · exact Or.inr (Or.inl rfl)
          · exact Or.inr (Or.inr h)
        · rintro (h | rfl | h)
          · exact Or.inl (Or.inl h)
          · exact Or.inl (Or.inr rfl)
          · exact Or.inr h

/-- Key distinctness is preserved by the fold of fragments. -/
theorem keys_foldl_nodup (ds : List TCDelta) :
    ∀ acc : List (Nat × ToolCall), (acc.map Prod.fst).Nodup →
      ((ds.foldl updateAssoc acc).map Prod.fst).Nodup := by
  induction ds with
  | nil => intro acc h; simpa
  | cons d ds ih =>
      intro acc h
      simp only [List.foldl_cons]
      apply ih
      rw [keys_updateAssoc]
      by_cases hmem : d.index ∈ acc.map Prod.fst
      · simpa [hmem] using h
      · simp only [if_neg hmem]
        simp [List.nodup_append, h, hmem]

/-- A fragment filter is empty exactly when no fragment addresses the
index. -/
theorem filter_index_eq_nil (ds : List TCDelta) (i : Nat) :
    ds.filter (fun d => d.index == i) = [] ↔ i ∉ ds.map (·.index) := by
  induction ds with
  | nil => simp
  | cons d ds ih =>
      by_cases hd : d.index = i
      · subst hd
        simp [List.filter_cons]
      · have hbeq : (d.index == i) = false := by simpa using hd
        simp [List.filter_cons, hbeq, ih, Ne.symm hd]

/-- A pointwise-`some` filterMap is a map. -/
theorem filterMap_eq_map_of_forall (l : List Nat)
    (f : Nat → Option ToolCall) (g : Nat → ToolCall)
    (h : ∀ i ∈ l, f i = some (g i)) : l.filterMap f = l.map g := by
  induction l with
  | nil => rfl
  | cons a l ih =>
      rw [List.filterMap_cons, h a (List.mem_cons_self a l),
        List.map_cons, ih (fun i hi => h i (List.mem_cons_of_mem a hi))]

/-- The sorted key list of the final accumulator is the sorted list of
distinct fragment indices. -/
theorem sortedKeys_eq (chunks : List Chunk) :
    ((streamCompletion chunks).acc.map Prod.fst).insertionSort (· ≤ ·) =
      (deltaIndices (allDeltas chunks)).insertionSort (· ≤ ·) := by
  have hk : ((streamCompletion chunks).acc.map Prod.fst).Nodup := by
    rw [streamCompletion_acc]
    exact keys_foldl_nodup (allDeltas chunks) [] (by simp)
  have hd : (deltaIndices (allDeltas chunks)).Nodup :=
    List.nodup_dedup _
  have hmem : ∀ a, a ∈ (streamCompletion chunks).acc.map Prod.fst ↔
      a ∈ deltaIndices (allDeltas chunks) := by
    intro a
    rw [streamCompletion_acc, keys_foldl_mem, deltaIndices,
      List.mem_dedup]
    simp
  have h1 : List.Perm
      (((streamCompletion chunks).acc.map Prod.fst).insertionSort (· ≤ ·))
      ((streamCompletion chunks).acc.map Prod.fst) :=
    List.perm_insertionSort _ _
  have h2 : List.Perm ((streamCompletion chunks).acc.map Prod.fst)
      (deltaIndices (allDeltas chunks)) :=
    (List.perm_ext_iff_of_nodup hk hd).mpr hmem
  have h3 : List.Perm (deltaIndices (allDeltas chunks))
      ((deltaIndices (allDeltas chunks)).insertionSort (· ≤ ·)) :=
    (List.perm_insertionSort _ _).symm
  have hs1 : List.Sorted (· ≤ ·)
      (((streamCompletion chunks).acc.map Prod.fst).insertionSort
        (· ≤ ·)) :=
    List.sorted_insertionSort _ _
  have hs2 : List.Sorted (· ≤ ·)
      ((deltaIndices (allDeltas chunks)).insertionSort (· ≤ ·)) :=
    List.sorted_insertionSort _ _
  exact List.eq_of_perm_of_sorted ((h1.trans h2).trans h3) hs1 hs2

/-- Arguments merge by concatenation. -/
theorem applyDelta_arguments (tc : ToolCall) (d : TCDelta) :
    (applyDelta tc d).arguments = tc.arguments ++ d.arguments := by
  by_cases h : d.arguments = "" <;>
    simp only [applyDelta] <;> split_ifs <;>
      simp [h, String.append_empty]

/-- Identifier merge: a non-empty fragment identifier overwrites. -/
theorem applyDelta_id (tc : ToolCall) (d : TCDelta) :
    (applyDelta tc d).id = if d.id ≠ "" then d.id else tc.id := by
  simp only [applyDelta]
  split_ifs <;> simp_all

/-- Name merge: a non-empty fragment name overwrites. -/
theorem applyDelta_name (tc : ToolCall) (d : TCDelta) :
    (applyDelta tc d).name = if d.name ≠ "" then d.name else tc.name := by
  simp only [applyDelta]
  split_ifs <;> simp_all

/-- `String.join` over a cons. -/
theorem strJoin_cons (a : String) (l : List String) :
    String.join (a :: l) = a ++ String.join l := by
  simp [String.join_eq]
  rfl

/-- Merging a fragment list concatenates its argument pieces in
order. -/
theorem foldl_applyDelta_arguments (l : List TCDelta) :
    ∀ tc : ToolCall, (l.foldl applyDelta tc).arguments =
      tc.arguments ++ String.join (l.map (·.arguments)) := by
  induction l with
  | nil => intro tc; simp [String.join, String.append_empty]
  | cons d l ih =>
      intro tc
      rw [List.foldl_cons, ih, applyDelta_arguments, List.map_cons,
        strJoin_cons, String.append_assoc]

/-- Merging a fragment list keeps the last non-empty identifier. -/
theorem foldl_applyDelta_id (l : List TCDelta) :
    ∀ tc : ToolCall, (l.foldl applyDelta tc).id =
      (l.map (·.id)).foldl (fun a s => if s ≠ "" then s else a) tc.id := by
  induction l with
  | nil => intro tc; rfl
  | cons d l ih =>
      intro tc
      rw [List.foldl_cons, ih, applyDelta_id, List.map_cons,
        List.foldl_cons]

/-- Merging a fragment list keeps the last non-empty name. -/
theorem foldl_applyDelta_name (l : List TCDelta) :
    ∀ tc : ToolCall, (l.foldl applyDelta tc).name =
      (l.map (·.name)).foldl (fun a s => if s ≠ "" then s else a)
        tc.name := by
  induction l with
  | nil => intro tc; rfl
  | cons d l ih =>
      intro tc
      rw [List.foldl_cons, ih, applyDelta_name, List.map_cons,
        List.foldl_cons]

/-- Lookup in the final accumulator yields the merged call of the
index's own fragments. -/
theorem streamCompletion_lookup (chunks : List Chunk) (i : Nat) :
    (streamCompletion chunks).acc.lookup i =
      if (allDeltas chunks).filter (fun d => d.index == i) = [] then none
      else some (mergedAt (allDeltas chunks) i) := by
  rw [streamCompletion_acc, lookup_foldl_updateAssoc]
  simp [List.lookup, mergedAt]

/-- C6: at stream end the indexed fragments resolve to one completed
call per distinct index, ordered by index; each call's argument string
is the concatenation, in arrival order, of the argument fragments for
its index, and its identifier and name are the last non-empty values
supplied for its index; in particular the two-fragment "Read"
scenario resolves to the single expected call. -/
theorem tool_call_fragments_resolve (chunks : List Chunk)
    (ds : List TCDelta) (i : Nat) :
    resolve (streamCompletion chunks).acc =
      ((deltaIndices (allDeltas chunks)).insertionSort (· ≤ ·)).map
        (mergedAt (allDeltas chunks)) ∧
    (mergedAt ds i).arguments =
      String.join ((ds.filter (fun d => d.index == i)).map
        (·.arguments)) ∧
    (mergedAt ds i).id =
      lastSupplied ((ds.filter (fun d => d.index == i)).map (·.id)) ∧
    (mergedAt ds i).name =
      lastSupplied ((ds.filter (fun d => d.index == i)).map (·.name)) ∧
    resolve (streamCompletion [chunkRead1, chunkRead2]).acc =
      [⟨"", "Read", "\x7b\"file_path\":\"a.txt\"\x7d"⟩] := by
  refine ⟨?_, ?_, ?_, ?_, by decide⟩
  · have hsome : ∀ j ∈ ((streamCompletion chunks).acc.map
        Prod.fst).insertionSort (· ≤ ·),
        (streamCompletion chunks).acc.lookup j =
          some (mergedAt (allDeltas chunks) j) := by
      intro j hj
      have hjk : j ∈ (streamCompletion chunks).acc.map Prod.fst :=
        (List.mem_insertionSort _).mp hj
      have hjm : j ∈ (allDeltas chunks).map (·.index) := by
        rw [streamCompletion_acc, keys_foldl_mem] at hjk
        simpa using hjk
      rw [streamCompletion_lookup, if_neg]
      rw [filter_index_eq_nil]
      simpa using hjm
    rw [resolve, filterMap_eq_map_of_forall _ _ _ hsome, sortedKeys_eq]
  · rw [mergedAt, foldl_applyDelta_arguments]
    rfl
  · rw [mergedAt, foldl_applyDelta_id]
    rfl
  · rw [mergedAt, foldl_applyDelta_name]
    rfl

end Tinabot
